import Mathlib

/-!
Verification of the BEV transformer orchestration layer
(`projects/mmdet3d_plugin/models/modules/bev_transformer.py`).

The Python module is shallowly embedded below:
* tensor contents that the claims inspect are modelled as lists of exact
  rationals (`ℚ`) where the source only does rational arithmetic
  (`torch.linspace`, cumulative sums), and as reals (`ℝ`) where the source
  uses transcendental functions (`np.sin`, `np.arctan2`, `torch.log`);
* the shape bookkeeping of `forward`'s `prev_bev` handling is embedded as a
  function on shape triples returning `Except`, mirroring where PyTorch
  `reshape` raises;
* Python option values that are dispatched by `== 'sentinel'` followed by
  truthiness (`use_shift`, `rotate_prev_bev`) are embedded as a `PyVal`
  type with an explicit truthiness predicate.
-/

/-- Python option value: the configuration fields `use_shift` and
`rotate_prev_bev` hold either a boolean or a sentinel string. -/
inductive PyVal where
  | bool (b : Bool)
  | str (s : String)
deriving DecidableEq

/-- Python truthiness for the values a `PyVal` can hold. -/
def PyVal.truthy : PyVal → Bool
  | .bool b => b
  | .str s => s ≠ ""

/-! ## Reference points (`get_reference_points`, lines 140-169) -/

/-- Value at index `i` of `torch.linspace(a, b, n)`: for `n = 1` the single
sample is `a`, otherwise samples are `a + i * (b - a) / (n - 1)`. -/
def linspaceVal (a b : ℚ) (n i : ℕ) : ℚ :=
  if n = 1 then a else a + (i : ℚ) * (b - a) / ((n : ℚ) - 1)

/-- One 3d reference point of the `dim == '3d'` branch, at depth sample `d`
and flattened cell index `c`.  In the source, `zs/xs/ys` are built by
`linspace` divided by `Z/W/H`, stacked to shape `(D, H, W, 3)`; the
`permute(0,3,1,2).flatten(2).permute(0,2,1)` pipeline yields layout
`(D, H*W, 3)` with cell index `c = y*W + x` row-major, so the point at
`(d, c)` is `(xs[c % W], ys[c / W], zs[d])`. -/
def ref3dPoint (H W Z D : ℕ) (d c : ℕ) : ℚ × ℚ × ℚ :=
  (linspaceVal (1/2) ((W : ℚ) - 1/2) W (c % W) / (W : ℚ),
   linspaceVal (1/2) ((H : ℚ) - 1/2) H (c / W) / (H : ℚ),
   linspaceVal (1/2) ((Z : ℚ) - 1/2) D d / (Z : ℚ))

/-- The `(D*H*W)`-point sequence of one batch element of the `'3d'` branch,
depth-major then flattened cell index. -/
def ref3dPoints (H W Z D : ℕ) : List (ℚ × ℚ × ℚ) :=
  (List.range D).flatMap (fun d =>
    (List.range (H * W)).map (fun c => ref3dPoint H W Z D d c))

/-- `get_reference_points(H, W, Z, D, dim='3d', bs)`: the batch dimension is
produced by `ref_3d[None].repeat(bs, 1, 1, 1)`, i.e. `bs` identical copies. -/
def get_reference_points_3d (H W Z D bs : ℕ) : List (List (ℚ × ℚ × ℚ)) :=
  List.replicate bs (ref3dPoints H W Z D)

/-- One 2d reference point of the `dim == '2d'` branch at flattened cell
index `c`: `meshgrid` of the `H`- and `W`-linspaces, reshaped row-major and
stacked as `(ref_x, ref_y)`, gives `(xs[c % W] / W, ys[c / W] / H)`. -/
def ref2dPoint (H W : ℕ) (c : ℕ) : ℚ × ℚ :=
  (linspaceVal (1/2) ((W : ℚ) - 1/2) W (c % W) / (W : ℚ),
   linspaceVal (1/2) ((H : ℚ) - 1/2) H (c / W) / (H : ℚ))

/-- The `(H*W)`-point sequence of one batch element of the `'2d'` branch. -/
def ref2dPoints (H W : ℕ) : List (ℚ × ℚ) :=
  (List.range (H * W)).map (fun c => ref2dPoint H W c)

/-- `get_reference_points(H, W, dim='2d', bs)`: `repeat(bs, 1, 1)` then
`unsqueeze(2)` (a singleton level axis around each point). -/
def get_reference_points_2d (H W bs : ℕ) : List (List (List (ℚ × ℚ))) :=
  List.replicate bs ((ref2dPoints H W).map (fun p => [p]))

/-! ## Level bookkeeping (`forward`, lines 310-327) -/

/-- `torch.cumsum` along a list, with accumulator. -/
def cumsumAux : ℕ → List ℕ → List ℕ
  | _, [] => []
  | acc, x :: xs => (acc + x) :: cumsumAux (acc + x) xs

/-- `spatial_shapes.prod(1).cumsum(0)`. -/
def cumsum (xs : List ℕ) : List ℕ := cumsumAux 0 xs

/-- `spatial_shapes.prod(1)`: per-level token counts `h_l * w_l`. -/
def levelProds (shapes : List (ℕ × ℕ)) : List ℕ :=
  shapes.map (fun s => s.1 * s.2)

/-- Line 327: `torch.cat((spatial_shapes.new_zeros((1,)),
spatial_shapes.prod(1).cumsum(0)[:-1]))`. -/
def level_start_index (shapes : List (ℕ × ℕ)) : List ℕ :=
  0 :: (cumsum (levelProds shapes)).dropLast

/-- The length of the concatenated token sequence, `sum(h_l * w_l)`. -/
def totalTokens (shapes : List (ℕ × ℕ)) : ℕ := (levelProds shapes).sum

/-! ## Ego-motion shift (`forward`, lines 245-277) -/

/-- Line 259: `translation_length = np.sqrt(delta_x**2 + delta_y**2)`. -/
noncomputable def translation_length (dx dy : ℝ) : ℝ := Real.sqrt (dx^2 + dy^2)

/-- `np.arctan2(y, x)`: the angle of the point `(x, y)`, in `(-π, π]`. -/
noncomputable def arctan2 (y x : ℝ) : ℝ :=
  if 0 < x then Real.arctan (y / x)
  else if x < 0 then
    (if 0 ≤ y then Real.arctan (y / x) + Real.pi
     else Real.arctan (y / x) - Real.pi)
  else (if 0 < y then Real.pi / 2 else if y < 0 then -(Real.pi / 2) else 0)

/-- Lines 261-262: `np.arctan2(delta_y, delta_x) / np.pi * 180`, then
`if translation_angle < 0: translation_angle += 360`. -/
noncomputable def translation_angle_deg (dx dy : ℝ) : ℝ :=
  let t := arctan2 dy dx / Real.pi * 180
  if t < 0 then t + 360 else t

/-- `np.sin(θ / 180 * np.pi)` for an angle in degrees (lines 267-271). -/
noncomputable def degSin (θ : ℝ) : ℝ := Real.sin (θ / 180 * Real.pi)

/-- `np.cos(θ / 180 * np.pi)` for an angle in degrees (lines 267-271). -/
noncomputable def degCos (θ : ℝ) : ℝ := Real.cos (θ / 180 * Real.pi)

/-- Lines 259-277: the `(shift_x, shift_y)` pair `forward` builds from the
ego displacement `(dx, dy)` and heading `ego_angle` (degrees).  Dispatch is
the source's: equality with the sentinel string `'waymo_shift'` first, then
Python truthiness of `use_shift`, else the zero shift. -/
noncomputable def computeShift (use_shift : PyVal) (dx dy ego_angle glx gly : ℝ)
    (bev_h bev_w : ℕ) : ℝ × ℝ :=
  let L := translation_length dx dy
  let bev_angle := ego_angle - translation_angle_deg dx dy
  if use_shift = PyVal.str "waymo_shift" then
    (L * degCos bev_angle / glx / (bev_w : ℝ), L * degSin bev_angle / gly / (bev_h : ℝ))
  else if use_shift.truthy then
    (L * degSin bev_angle / glx / (bev_w : ℝ), L * degCos bev_angle / gly / (bev_h : ℝ))
  else (0, 0)

/-! ## `inverse_sigmoid` (lines 36-51) -/

/-- `torch.sigmoid`: the logistic function. -/
noncomputable def sigmoid (x : ℝ) : ℝ := 1 / (1 + Real.exp (-x))

/-- Lines 48-49: `x.clamp(min=0, max=1)` then `.clamp(min=eps)` — the value
the division's numerator and the quotient's numerator receive. -/
noncomputable def inv_sig_x1 (x eps : ℝ) : ℝ := max (min (max x 0) 1) eps

/-- Line 50: `(1 - x).clamp(min=eps)` on the `[0,1]`-clamped input — the
value the division's denominator receives. -/
noncomputable def inv_sig_x2 (x eps : ℝ) : ℝ := max (1 - min (max x 0) 1) eps

/-- Lines 36-51: `inverse_sigmoid(x, eps) = log(x1 / x2)`. -/
noncomputable def inverse_sigmoid (x : ℝ) (eps : ℝ) : ℝ :=
  Real.log (inv_sig_x1 x eps / inv_sig_x2 x eps)

/-! ## `prev_bev` handling (`forward`, lines 279-304) -/

/-- The shape of a rank-3 tensor. -/
structure TShape3 where
  d0 : ℕ
  d1 : ℕ
  d2 : ℕ
deriving DecidableEq

/-- Element count of a rank-3 tensor. -/
def TShape3.numel (s : TShape3) : ℕ := s.d0 * s.d1 * s.d2

/-- `t.reshape(a, b, -1)`: PyTorch infers the last dimension and raises when
the element count is not divisible by `a * b`. -/
def reshapeInfer (s : TShape3) (a b : ℕ) : Except String TShape3 :=
  if a * b ≠ 0 ∧ s.numel % (a * b) = 0 then
    .ok ⟨a, b, s.numel / (a * b)⟩
  else .error "cannot reshape"

/-- Shape evolution of a rotation-branch body (lines 284-287 and 301-304):
`num_prev_bev = prev_bev.size(1)`; `reshape(bev_h, bev_w, -1)`;
`permute(2, 0, 1)`; `rotate` (shape-preserving — the two branches differ only
in the rotation `center`); `permute(1, 2, 0)`; finally
`reshape(bev_h * bev_w, num_prev_bev, -1)`. -/
def rotateBranchShape (bev_h bev_w : ℕ) (s : TShape3) : Except String TShape3 := do
  let nPrev := s.d1
  let s1 ← reshapeInfer s bev_h bev_w
  let s2 : TShape3 := ⟨s1.d2, s1.d0, s1.d1⟩
  let s3 : TShape3 := ⟨s2.d1, s2.d2, s2.d0⟩
  reshapeInfer s3 (bev_h * bev_w) nPrev

/-- Lines 279-304: the shape evolution of a non-`None` `prev_bev`.  Line 280
permutes `(1, 0, 2)` only when `prev_bev.shape[1] == bev_h * bev_w`; a
mismatch is silently skipped.  Then the rotation branch selected by
`rotate_prev_bev` (sentinel-string equality first, then truthiness) runs, or
nothing does. -/
def handlePrevBev (rotate_prev_bev : PyVal) (bev_h bev_w : ℕ) (s : TShape3) :
    Except String TShape3 :=
  let s' := if s.d1 = bev_h * bev_w then TShape3.mk s.d1 s.d0 s.d2 else s
  if rotate_prev_bev = PyVal.str "waymo_rotate" then
    rotateBranchShape bev_h bev_w s'
  else if rotate_prev_bev.truthy then
    rotateBranchShape bev_h bev_w s'
  else .ok s'

/-! ## Feature flattening (`forward`, lines 310-325) -/

/-- A per-level camera feature map, modelled pointwise: the value at
`(batch, cam, channel, row, col)`. -/
def FeatMap : Type := ℕ → ℕ → ℕ → ℕ → ℕ → ℚ

/-- Lines 313-321 for one level of width `w`: `feat.flatten(3).permute(1, 0,
3, 2)` makes the value at `(cam, batch, pos, channel)` the input value at
`(batch, cam, channel, pos / w, pos % w)`; then the camera embedding row is
added when `use_cams_embeds` and the level embedding row is always added. -/
def flattenOneLevel (use_cams_embeds : Bool)
    (cams_embeds level_embeds : ℕ → ℕ → ℚ) (lvl : ℕ) (w : ℕ)
    (feat : FeatMap) : ℕ → ℕ → ℕ → ℕ → ℚ :=
  fun cam b pos ch =>
    let base := feat b cam ch (pos / w) (pos % w)
    let withCams := if use_cams_embeds then base + cams_embeds cam ch else base
    withCams + level_embeds lvl ch

/-- Lines 310-325: the per-level list `feat_flatten` before the final
`torch.cat`, each level paired with its width by `enumerate(mlvl_feats)`. -/
def featFlatten (use_cams_embeds : Bool)
    (cams_embeds level_embeds : ℕ → ℕ → ℚ) (feats : List (ℕ × FeatMap)) :
    List (ℕ → ℕ → ℕ → ℕ → ℚ) :=
  feats.enum.map (fun lf =>
    flattenOneLevel use_cams_embeds cams_embeds level_embeds lf.1 lf.2.1 lf.2.2)

/-! ## Option dispatch (`__init__` lines 66-102, `forward` lines 266-304) -/

/-- Which of the three documented behaviors a dispatch site selects. -/
inductive BranchChoice where
  | alternate
  | standard
  | off
deriving DecidableEq

/-- The branch of lines 266-276 taken for a `use_shift` value: sentinel
string equality, then Python truthiness, else the zero shift. -/
def shiftBranch (use_shift : PyVal) : BranchChoice :=
  if use_shift = PyVal.str "waymo_shift" then .alternate
  else if use_shift.truthy then .standard
  else .off

/-- The branch of lines 283-304 taken for a `rotate_prev_bev` value. -/
def rotateBranch (rotate_prev_bev : PyVal) : BranchChoice :=
  if rotate_prev_bev = PyVal.str "waymo_rotate" then .alternate
  else if rotate_prev_bev.truthy then .standard
  else .off

/-- The shift/rotation configuration fields stored by
`BEVTransformer.__init__`. -/
structure BEVTransformerConfig where
  rotate_prev_bev : PyVal
  use_shift : PyVal
deriving DecidableEq

/-- Lines 95 and 98: the constructor assigns `rotate_prev_bev` and
`use_shift` directly to fields; no branch of `__init__` inspects or rejects
their values. -/
def initConfig (rotate_prev_bev use_shift : PyVal) : BEVTransformerConfig :=
  ⟨rotate_prev_bev, use_shift⟩

/-! ## Ego-motion extraction (`forward`, lines 245-251 and 306-308) -/

/-- Python list indexing with negative-index support; `none` models the
`IndexError` raised when the index is out of range. -/
def pyGet (l : List ℝ) (i : ℤ) : Option ℝ :=
  if 0 ≤ i then l[i.toNat]?
  else if (-i).toNat ≤ l.length then l[l.length - (-i).toNat]? else none

/-- The quantities `forward` derives from ego motion: the grid shift (lines
259-277), the rotation angle applied to `prev_bev` (line 251), and the
can-bus vector fed through `can_bus_mlp` and added to the BEV query (lines
306-308).  The learned MLP is an opaque collaborator, abstracted as `mlp`.
Every can-bus read indexes `kwargs['img_metas'][0]` (lines 247-251, 306);
`none` models the `IndexError`/`KeyError` on an empty batch or a too-short
can-bus vector. -/
noncomputable def forwardEgoDerived (use_shift : PyVal) (glx gly : ℝ)
    (bev_h bev_w : ℕ) (mlp : List ℝ → List ℝ) (img_metas : List (List ℝ)) :
    Option ((ℝ × ℝ) × ℝ × List ℝ) :=
  match img_metas with
  | [] => none
  | can_bus :: _ =>
      match pyGet can_bus 0, pyGet can_bus 1,
          pyGet can_bus (-2), pyGet can_bus (-1) with
      | some dx, some dy, some ego, some rot =>
          some (computeShift use_shift dx dy (ego / Real.pi * 180) glx gly
                  bev_h bev_w,
                rot, mlp can_bus)
      | _, _, _, _ => none

/-- Decidable open-unit-interval test for a rational coordinate. -/
def inOpen01 (q : ℚ) : Bool := 0 < q && q < 1

/-- Decidable test that all three coordinates of a 3d point are in `(0,1)`. -/
def pointInOpenCube (p : ℚ × ℚ × ℚ) : Bool :=
  inOpen01 p.1 && inOpen01 p.2.1 && inOpen01 p.2.2

/-- Decidable test that both coordinates of a 2d point are in `(0,1)`. -/
def pointInOpenSquare (p : ℚ × ℚ) : Bool := inOpen01 p.1 && inOpen01 p.2

/-- On the cell linspace `linspace(0.5, n - 0.5, n)`, sample `i` is `i + 0.5`. -/
theorem linspaceVal_cell (n i : ℕ) (hi : i < n) :
    linspaceVal (1/2) ((n : ℚ) - 1/2) n i = (i : ℚ) + 1/2 := by
  by_cases h1 : n = 1
  · subst h1
    have hi0 : i = 0 := by omega
    subst hi0
    simp [linspaceVal]
  · have h2 : 2 ≤ n := by omega
    have hne : ((n : ℚ) - 1) ≠ 0 := by
      have h2q : (2 : ℚ) ≤ (n : ℚ) := by exact_mod_cast h2
      linarith
    simp only [linspaceVal, if_neg h1]
    field_simp
    ring

/-- A normalized cell-center coordinate `(i + 0.5)/n` lies in `(0, 1)`. -/
theorem cell_coord_mem (n i : ℕ) (hn : 0 < n) (hi : i < n) :
    0 < ((i : ℚ) + 1/2) / (n : ℚ) ∧ ((i : ℚ) + 1/2) / (n : ℚ) < 1 := by
  have hnq : (0 : ℚ) < (n : ℚ) := by exact_mod_cast hn
  constructor
  · exact div_pos (by positivity) hnq
  · rw [div_lt_one hnq]
    have hiq : (i : ℚ) + 1 ≤ (n : ℚ) := by exact_mod_cast hi
    linarith

/-- The normalized depth coordinate `linspace(0.5, Z - 0.5, D)[d] / Z` lies
in `(0, 1)` for `d < D` and positive `Z`, `D`. -/
theorem z_coord_mem (Z D d : ℕ) (hZ : 0 < Z) (hd : d < D) :
    0 < linspaceVal (1/2) ((Z : ℚ) - 1/2) D d / (Z : ℚ) ∧
      linspaceVal (1/2) ((Z : ℚ) - 1/2) D d / (Z : ℚ) < 1 := by
  have hZq : (1 : ℚ) ≤ (Z : ℚ) := by exact_mod_cast hZ
  have hZpos : (0 : ℚ) < (Z : ℚ) := by linarith
  by_cases h1 : D = 1
  · subst h1
    have hd0 : d = 0 := by omega
    subst hd0
    have hval : linspaceVal (1/2) ((Z : ℚ) - 1/2) 1 0 = 1/2 := by
      simp [linspaceVal]
    rw [hval]
    constructor
    · positivity
    · rw [div_lt_one hZpos]; linarith
  · have h2 : 2 ≤ D := by omega
    have hDq : (2 : ℚ) ≤ (D : ℚ) := by exact_mod_cast h2
    have hden : (0 : ℚ) < (D : ℚ) - 1 := by linarith
    have hdq : (d : ℚ) ≤ (D : ℚ) - 1 := by
      have : (d : ℚ) + 1 ≤ (D : ℚ) := by exact_mod_cast hd
      linarith
    have hZ1 : (0 : ℚ) ≤ (Z : ℚ) - 1 := by linarith
    simp only [linspaceVal, if_neg h1]
    have hba : ((Z : ℚ) - 1/2) - 1/2 = (Z : ℚ) - 1 := by ring
    rw [hba]
    have hnum_nonneg : (0 : ℚ) ≤ (d : ℚ) * ((Z : ℚ) - 1) / ((D : ℚ) - 1) := by
      positivity
    have hnum_le : (d : ℚ) * ((Z : ℚ) - 1) / ((D : ℚ) - 1) ≤ (Z : ℚ) - 1 := by
      rw [div_le_iff₀ hden]
      nlinarith
    constructor
    · positivity
    · rw [div_lt_one hZpos]
      linarith

/-- Every coordinate of a 3d reference point at a valid depth/cell index is
strictly inside `(0, 1)`. -/
theorem ref3dPoint_in_cube (H W Z D d c : ℕ) (hH : 0 < H) (hW : 0 < W)
    (hZ : 0 < Z) (hd : d < D) (hc : c < H * W) :
    pointInOpenCube (ref3dPoint H W Z D d c) = true := by
  have hx : c % W < W := Nat.mod_lt _ hW
  have hy : c / W < H := Nat.div_lt_of_lt_mul (by rwa [Nat.mul_comm] at hc)
  simp only [pointInOpenCube, inOpen01, ref3dPoint, Bool.and_eq_true,
    decide_eq_true_eq]
  rw [linspaceVal_cell W (c % W) hx, linspaceVal_cell H (c / W) hy]
  obtain ⟨hx0, hx1⟩ := cell_coord_mem W (c % W) hW hx
  obtain ⟨hy0, hy1⟩ := cell_coord_mem H (c / W) hH hy
  obtain ⟨hz0, hz1⟩ := z_coord_mem Z D d hZ hd
  exact ⟨⟨⟨hx0, hx1⟩, hy0, hy1⟩, hz0, hz1⟩

/-- The single-batch 3d point sequence has exactly `D * H * W` entries. -/
theorem ref3dPoints_length (H W Z D : ℕ) :
    (ref3dPoints H W Z D).length = D * H * W := by
  simp only [ref3dPoints, List.length_flatMap, Function.comp_def,
    List.length_map, List.length_range, List.map_const', List.sum_replicate,
    smul_eq_mul]
  ring

/-- C3: for positive `H`, `W`, `Z`, `D` and any batch size, every batch
element of `get_reference_points(H, W, Z, D, dim='3d', bs)` holds exactly
`D*H*W` points, all of whose coordinates lie strictly inside `(0, 1)`. -/
theorem ref3d_count_and_bounds (H W Z D bs : ℕ)
    (hH : 0 < H) (hW : 0 < W) (hZ : 0 < Z) (hD : 0 < D) :
    (get_reference_points_3d H W Z D bs).all
      (fun batch => batch.length == D * H * W && batch.all pointInOpenCube)
      = true := by
  rw [List.all_eq_true]
  intro batch hbatch
  have hb : batch = ref3dPoints H W Z D :=
    List.eq_of_mem_replicate (by simpa [get_reference_points_3d] using hbatch)
  subst hb
  rw [Bool.and_eq_true, beq_iff_eq]
  refine ⟨ref3dPoints_length H W Z D, ?_⟩
  rw [List.all_eq_true]
  intro p hp
  rw [ref3dPoints, List.mem_flatMap] at hp
  obtain ⟨d, hd, hp⟩ := hp
  rw [List.mem_map] at hp
  obtain ⟨c, hc, rfl⟩ := hp
  exact ref3dPoint_in_cube H W Z D d c hH hW hZ
    (List.mem_range.mp hd) (List.mem_range.mp hc)

/-- Witness for C3 at `H=2, W=3, Z=8, D=4, bs=2`. -/
theorem ref3d_count_and_bounds_witness :
    0 < 2 ∧ 0 < 3 ∧ 0 < 8 ∧ 0 < 4 ∧
      (get_reference_points_3d 2 3 8 4 2).all
        (fun batch => batch.length == 4 * 2 * 3 && batch.all pointInOpenCube)
        = true :=
  ⟨by decide, by decide, by decide, by decide,
    ref3d_count_and_bounds 2 3 8 4 2 (by decide) (by decide) (by decide) (by decide)⟩

/-- Both coordinates of a 2d reference point at a valid cell index are
strictly inside `(0, 1)`. -/
theorem ref2dPoint_in_square (H W c : ℕ) (hH : 0 < H) (hW : 0 < W)
    (hc : c < H * W) :
    pointInOpenSquare (ref2dPoint H W c) = true := by
  have hx : c % W < W := Nat.mod_lt _ hW
  have hy : c / W < H := Nat.div_lt_of_lt_mul (by rwa [Nat.mul_comm] at hc)
  simp only [pointInOpenSquare, inOpen01, ref2dPoint, Bool.and_eq_true,
    decide_eq_true_eq]
  rw [linspaceVal_cell W (c % W) hx, linspaceVal_cell H (c / W) hy]
  obtain ⟨hx0, hx1⟩ := cell_coord_mem W (c % W) hW hx
  obtain ⟨hy0, hy1⟩ := cell_coord_mem H (c / W) hH hy
  exact ⟨⟨hx0, hx1⟩, hy0, hy1⟩

/-- Indexing a `flatMap` over `List.range` whose blocks all have length `m`:
entry `d*m + i` is entry `i` of block `d`. -/
theorem flatMap_range_block_get {α : Type} (m : ℕ) :
    ∀ (n : ℕ) (g : ℕ → List α), (∀ k, (g k).length = m) →
      ∀ d i, d < n → i < m →
        ((List.range n).flatMap g)[d * m + i]? = (g d)[i]? := by
  intro n
  induction n with
  | zero => intro g hg d i hd hi; exact absurd hd (Nat.not_lt_zero d)
  | succ n ih =>
      intro g hg d i hd hi
      rw [List.range_succ_eq_map, List.flatMap_cons, List.flatMap_map]
      cases d with
      | zero =>
          rw [Nat.zero_mul, Nat.zero_add]
          rw [List.getElem?_append_left (by rw [hg 0]; exact hi)]
      | succ d =>
          have hidx : (d + 1) * m + i = (g 0).length + (d * m + i) := by
            rw [hg 0]; ring
          rw [hidx, List.getElem?_append_right (Nat.le_add_right _ _),
            Nat.add_sub_cancel_left]
          exact ih (fun k => g (k + 1)) (fun k => hg (k + 1)) d i
            (Nat.lt_of_succ_lt_succ hd) hi

/-- Entry `d*(H*W) + i` of the 3d point sequence is the point at depth `d`,
cell `i`. -/
theorem ref3dPoints_getElem (H W Z D d i : ℕ) (hd : d < D) (hi : i < H * W) :
    (ref3dPoints H W Z D)[d * (H * W) + i]? = some (ref3dPoint H W Z D d i) := by
  rw [ref3dPoints,
    flatMap_range_block_get (H * W) D _ (fun k => by simp) d i hd hi]
  rw [List.getElem?_map, List.getElem?_range hi]
  rfl

/-- Entry `i` of the 2d point sequence is the point at cell `i`. -/
theorem ref2dPoints_getElem (H W i : ℕ) (hi : i < H * W) :
    (ref2dPoints H W)[i]? = some (ref2dPoint H W i) := by
  rw [ref2dPoints, List.getElem?_map, List.getElem?_range hi]
  rfl

/-- C5: every batch element of the `'2d'` branch holds exactly `H*W` points
with both coordinates in `(0,1)` (each wrapped in the singleton level axis),
and the 2d point at cell `i` equals the `(x, y)` pair of the 3d point at the
same cell at any fixed depth sample `d < D` — the 2d output is the
`z`-independent cross-section of the 3d output. -/
theorem ref2d_count_bounds_cross_section (H W bs Z D d i : ℕ)
    (hH : 0 < H) (hW : 0 < W) (hd : d < D) (hi : i < H * W) :
    (get_reference_points_2d H W bs).all
        (fun batch => batch.length == H * W &&
          batch.all (fun lvl => lvl.all pointInOpenSquare)) = true ∧
      ((ref3dPoints H W Z D)[d * (H * W) + i]?).map (fun p => (p.1, p.2.1)) =
        (ref2dPoints H W)[i]? := by
  constructor
  · rw [List.all_eq_true]
    intro batch hbatch
    have hb : batch = (ref2dPoints H W).map (fun p => [p]) :=
      List.eq_of_mem_replicate
        (by simpa [get_reference_points_2d] using hbatch)
    subst hb
    rw [Bool.and_eq_true, beq_iff_eq]
    constructor
    · simp [ref2dPoints]
    · rw [List.all_eq_true]
      intro lvl hlvl
      rw [List.mem_map] at hlvl
      obtain ⟨p, hp, rfl⟩ := hlvl
      rw [ref2dPoints, List.mem_map] at hp
      obtain ⟨c, hc, rfl⟩ := hp
      simpa using ref2dPoint_in_square H W c hH hW (List.mem_range.mp hc)
  · rw [ref3dPoints_getElem H W Z D d i hd hi, ref2dPoints_getElem H W i hi]
    rfl

/-- Witness for C5 at `H=2, W=3, bs=2, Z=8, D=4, d=1, i=4`. -/
theorem ref2d_cross_section_witness :
    0 < 2 ∧ 0 < 3 ∧ 1 < 4 ∧ 4 < 2 * 3 ∧
      ((get_reference_points_2d 2 3 2).all
          (fun batch => batch.length == 2 * 3 &&
            batch.all (fun lvl => lvl.all pointInOpenSquare)) = true ∧
        ((ref3dPoints 2 3 8 4)[1 * (2 * 3) + 4]?).map (fun p => (p.1, p.2.1)) =
          (ref2dPoints 2 3)[4]?) :=
  ⟨by decide, by decide, by decide, by decide,
    ref2d_count_bounds_cross_section 2 3 2 8 4 1 4
      (by decide) (by decide) (by decide) (by decide)⟩

/-- C4: `get_reference_points(H=2, W=2, Z=8, D=1, dim='3d')` returns for
batch element 0 exactly 4 points, all with `z = 0.5/8 = 0.0625`, whose
`(x, y)` pairs in output order are `(0.25,0.25), (0.75,0.25), (0.25,0.75),
(0.75,0.75)` — depth-major, then row-major flattened cell index. -/
theorem ref3d_concrete_2_2_8_1 :
    get_reference_points_3d 2 2 8 1 1 =
      [[(1/4, 1/4, 1/16), (3/4, 1/4, 1/16), (1/4, 3/4, 1/16), (3/4, 3/4, 1/16)]] := by
  norm_num [get_reference_points_3d, ref3dPoints, ref3dPoint, linspaceVal,
    List.range_succ, List.replicate]

/-- The running sums produced by `cumsumAux` are strictly increasing from
the accumulator when every summand is positive. -/
theorem cumsumAux_chain (xs : List ℕ) :
    ∀ acc, (∀ x ∈ xs, 0 < x) →
      List.Chain' (· < ·) (acc :: cumsumAux acc xs) := by
  induction xs with
  | nil => intro acc _; simp [cumsumAux]
  | cons x xs ih =>
      intro acc hpos
      rw [cumsumAux, List.chain'_cons]
      refine ⟨?_, ih (acc + x) (fun y hy => hpos y (List.mem_cons_of_mem x hy))⟩
      have hx : 0 < x := hpos x (List.mem_cons_self x xs)
      omega

/-- The last running sum is the accumulator plus the total. -/
theorem cumsumAux_getLastD (xs : List ℕ) :
    ∀ acc, (acc :: cumsumAux acc xs).getLastD 0 = acc + xs.sum := by
  induction xs with
  | nil => intro acc; simp [cumsumAux]
  | cons x xs ih =>
      intro acc
      rw [cumsumAux, List.getLastD_cons, List.getLastD_cons]
      have h := ih (acc + x)
      rw [List.getLastD_cons] at h
      rw [h, List.sum_cons]
      omega

/-- `cumsumAux` over a list extended by one element appends the grand
total. -/
theorem cumsumAux_concat (xs : List ℕ) :
    ∀ acc x, cumsumAux acc (xs ++ [x]) =
      cumsumAux acc xs ++ [acc + xs.sum + x] := by
  induction xs with
  | nil => intro acc x; simp [cumsumAux]
  | cons y ys ih =>
      intro acc x
      rw [List.cons_append, cumsumAux, cumsumAux, ih, List.sum_cons]
      rw [List.cons_append]
      have h : acc + y + ys.sum + x = acc + (y + ys.sum) + x := by omega
      rw [h]

/-- C6: for every non-empty list of levels with positive spatial products,
`level_start_index` starts at 0, is strictly increasing, and its last entry
plus the last level's `h*w` is the total token count; concretely, shapes
`[(4,4),(2,2)]` give `level_start_index = [0,16]` and 20 total tokens. -/
theorem level_start_index_spec (shapes : List (ℕ × ℕ))
    (hne : shapes ≠ []) (hpos : ∀ s ∈ shapes, 0 < s.1 * s.2) :
    (level_start_index shapes).headD 1 = 0 ∧
    List.Chain' (· < ·) (level_start_index shapes) ∧
    (level_start_index shapes).getLastD 0 +
        (shapes.getLastD (0, 0)).1 * (shapes.getLastD (0, 0)).2 =
      totalTokens shapes ∧
    (level_start_index [(4, 4), (2, 2)] = [0, 16] ∧
      totalTokens [(4, 4), (2, 2)] = 20) := by
  refine ⟨rfl, ?_, ?_, by decide, by decide⟩
  · have hchain : List.Chain' (· < ·) (0 :: cumsumAux 0 (levelProds shapes)) := by
      refine cumsumAux_chain (levelProds shapes) 0 ?_
      intro x hx
      rw [levelProds, List.mem_map] at hx
      obtain ⟨s, hs, rfl⟩ := hx
      exact hpos s hs
    have hsub : List.Sublist (level_start_index shapes)
        (0 :: cumsumAux 0 (levelProds shapes)) := by
      rw [level_start_index, cumsum]
      exact List.Sublist.cons₂ 0 (List.dropLast_sublist _)
    exact hchain.sublist hsub
  · obtain rfl | ⟨ys, s, rfl⟩ := shapes.eq_nil_or_concat
    · exact absurd rfl hne
    · rw [List.concat_eq_append]
      have hprods : levelProds (ys ++ [s]) = levelProds ys ++ [s.1 * s.2] := by
        rw [levelProds, levelProds, List.map_append]
        rfl
      have hlsi : level_start_index (ys ++ [s]) =
          0 :: cumsumAux 0 (levelProds ys) := by
        rw [level_start_index, cumsum, hprods, cumsumAux_concat,
          List.dropLast_concat]
      rw [hlsi, cumsumAux_getLastD, totalTokens, hprods, List.sum_append,
        List.sum_cons, List.sum_nil]
      have hlast : (ys ++ [s]).getLastD (0, 0) = s := by
        rw [List.getLastD_eq_getLast?, List.getLast?_concat]
        rfl
      rw [hlast]
      omega

/-- Witness for C6 at shapes `[(4,4),(2,2)]`. -/
theorem level_start_index_spec_witness :
    (level_start_index [(4, 4), (2, 2)]).headD 1 = 0 ∧
    List.Chain' (· < ·) (level_start_index [(4, 4), (2, 2)]) ∧
    (level_start_index [(4, 4), (2, 2)]).getLastD 0 +
        (([(4, 4), (2, 2)] : List (ℕ × ℕ)).getLastD (0, 0)).1 *
          (([(4, 4), (2, 2)] : List (ℕ × ℕ)).getLastD (0, 0)).2 =
      totalTokens [(4, 4), (2, 2)] ∧
    (level_start_index [(4, 4), (2, 2)] = [0, 16] ∧
      totalTokens [(4, 4), (2, 2)] = 20) :=
  level_start_index_spec [(4, 4), (2, 2)] (by decide) (by decide)

/-- C2 counterexample: with rotation disabled, a `prev_bev` of shape
`(5, 7, 3)` whose dim-1 size 7 differs from `bev_h * bev_w = 4` flows
through lines 279-304 without any error: the permute guard on line 280 is
skipped and the mismatched tensor is passed on unchanged — `forward` does
not fail. -/
theorem prev_bev_mismatch_silently_accepted :
    (TShape3.mk 5 7 3).d1 ≠ 2 * 2 ∧
      handlePrevBev (PyVal.bool false) 2 2 ⟨5, 7, 3⟩ = .ok ⟨5, 7, 3⟩ :=
  ⟨by decide, rfl⟩

/-- C2 amended: `forward` never validates `prev_bev`'s spatial size — when
`prev_bev.shape[1]` differs from `bev_h * bev_w` the permute is silently
skipped, and with rotation disabled the mismatched previous state passes
through lines 279-304 entirely unchanged, with no error raised. -/
theorem prev_bev_mismatch_passthrough (rot : PyVal) (bev_h bev_w : ℕ)
    (s : TShape3) (hmis : s.d1 ≠ bev_h * bev_w) (hrot : rot.truthy = false) :
    handlePrevBev rot bev_h bev_w s = .ok s := by
  have hns : rot ≠ PyVal.str "waymo_rotate" := by
    intro h
    subst h
    simp [PyVal.truthy] at hrot
  simp [handlePrevBev, hmis, hns, hrot]

/-- Witness for the amended C2 at shape `(5, 1, 3)`, `bev_h = bev_w = 2`,
rotation disabled. -/
theorem prev_bev_mismatch_passthrough_witness :
    handlePrevBev (PyVal.bool false) 2 2 ⟨5, 1, 3⟩ = .ok ⟨5, 1, 3⟩ :=
  prev_bev_mismatch_passthrough (PyVal.bool false) 2 2 ⟨5, 1, 3⟩
    (by decide) (by decide)

/-- C9 counterexample: the unsupported option value `'banana'` — outside the
documented `{off, on, alternate}` choices — is stored untouched by the
constructor and at first use silently selects the standard behavior of both
dispatch sites; no `ConfigurationError` (or any error) exists on these
paths. -/
theorem unsupported_option_silently_standard :
    initConfig (PyVal.str "banana") (PyVal.str "banana") =
      ⟨PyVal.str "banana", PyVal.str "banana"⟩ ∧
    shiftBranch (PyVal.str "banana") = BranchChoice.standard ∧
    rotateBranch (PyVal.str "banana") = BranchChoice.standard :=
  ⟨rfl, by decide, by decide⟩

/-- C9 amended: unsupported option values are never rejected — `__init__`
stores any value unvalidated, and each dispatch site compares against its
sentinel string and then falls back to Python truthiness, so every truthy
unsupported value silently selects the standard behavior and every falsy
value disables the feature. -/
theorem option_dispatch_by_truthiness (v : PyVal)
    (hs : v ≠ PyVal.str "waymo_shift") (hr : v ≠ PyVal.str "waymo_rotate") :
    initConfig v v = ⟨v, v⟩ ∧
    shiftBranch v =
      (if v.truthy then BranchChoice.standard else BranchChoice.off) ∧
    rotateBranch v =
      (if v.truthy then BranchChoice.standard else BranchChoice.off) := by
  refine ⟨rfl, ?_, ?_⟩
  · rw [shiftBranch, if_neg hs]
  · rw [rotateBranch, if_neg hr]

/-- Witness for the amended C9 at the truthy value `True`. -/
theorem option_dispatch_by_truthiness_witness :
    initConfig (PyVal.bool true) (PyVal.bool true) =
      ⟨PyVal.bool true, PyVal.bool true⟩ ∧
    shiftBranch (PyVal.bool true) =
      (if (PyVal.bool true).truthy then BranchChoice.standard
       else BranchChoice.off) ∧
    rotateBranch (PyVal.bool true) =
      (if (PyVal.bool true).truthy then BranchChoice.standard
       else BranchChoice.off) :=
  option_dispatch_by_truthiness (PyVal.bool true) (by decide) (by decide)

/-- C10: the shift vector, the rotation angle applied to `prev_bev`, and the
can-bus embedding added to the BEV query are derived exclusively from the
ego-motion record of batch element 0: two calls whose `img_metas` agree on
element 0 but differ arbitrarily elsewhere produce identical derived
quantities, for every configuration and every learned MLP. -/
theorem ego_derived_from_batch0_only (use_shift : PyVal) (glx gly : ℝ)
    (bev_h bev_w : ℕ) (mlp : List ℝ → List ℝ) (meta0 : List ℝ)
    (rest rest' : List (List ℝ)) :
    forwardEgoDerived use_shift glx gly bev_h bev_w mlp (meta0 :: rest) =
      forwardEgoDerived use_shift glx gly bev_h bev_w mlp (meta0 :: rest') :=
  rfl

/-- C8: with `use_cams_embeds = False`, the flattened feature sequence is
the reshaped input plus only the per-level embeddings — it is identical for
any two values of the camera-embedding table. -/
theorem cams_embeds_noninterference (cams1 cams2 level_embeds : ℕ → ℕ → ℚ)
    (feats : List (ℕ × FeatMap)) :
    featFlatten false cams1 level_embeds feats =
      featFlatten false cams2 level_embeds feats ∧
    featFlatten false cams1 level_embeds feats =
      feats.enum.map (fun lf => fun cam b pos ch =>
        lf.2.2 b cam ch (pos / lf.2.1) (pos % lf.2.1) +
          level_embeds lf.1 ch) :=
  ⟨rfl, rfl⟩

/-- C1: lines 259-277 — with `L = sqrt(dx² + dy²)`, the translation angle
`atan2(dy, dx)` in degrees normalized into `[0, 360)`, and `bev_angle =
ego_heading − translation_angle`, standard mode returns
`(L·sin(bev)/glx/W, L·cos(bev)/gly/H)`, the `'waymo_shift'` mode the same
with sin and cos exchanged, and the disabled mode `(0, 0)`; the scenario
`dx=1, dy=0, heading=0°`, standard mode, `glx=gly=1`, `H=W=10` yields
`(shift_x, shift_y) = (0, 0.1)`. -/
theorem shift_computation_spec (dx dy ego glx gly : ℝ) (bev_h bev_w : ℕ) :
    computeShift (PyVal.bool false) dx dy ego glx gly bev_h bev_w = (0, 0) ∧
    computeShift (PyVal.bool true) dx dy ego glx gly bev_h bev_w =
      (translation_length dx dy * degSin (ego - translation_angle_deg dx dy) /
          glx / (bev_w : ℝ),
       translation_length dx dy * degCos (ego - translation_angle_deg dx dy) /
          gly / (bev_h : ℝ)) ∧
    computeShift (PyVal.str "waymo_shift") dx dy ego glx gly bev_h bev_w =
      (translation_length dx dy * degCos (ego - translation_angle_deg dx dy) /
          glx / (bev_w : ℝ),
       translation_length dx dy * degSin (ego - translation_angle_deg dx dy) /
          gly / (bev_h : ℝ)) ∧
    computeShift (PyVal.bool true) 1 0 0 1 1 10 10 = (0, 1/10) := by
  have hL : translation_length 1 0 = 1 := by
    rw [translation_length]
    norm_num
  have hT : translation_angle_deg 1 0 = 0 := by
    rw [translation_angle_deg, arctan2]
    norm_num [Real.arctan_zero]
  refine ⟨?_, ?_, ?_, ?_⟩
  · simp [computeShift, PyVal.truthy]
  · simp [computeShift, PyVal.truthy]
  · simp [computeShift]
  · have hne : (PyVal.bool true = PyVal.str "waymo_shift") = False := by
      simp
    simp only [computeShift, PyVal.truthy, hne, if_false, hL, hT]
    norm_num [degSin, degCos, Real.sin_zero, Real.cos_zero]

/-- The logistic function at 0. -/
theorem sigmoid_zero : sigmoid 0 = 1/2 := by
  rw [sigmoid]
  norm_num [Real.exp_zero]

/-- The odds ratio of the logistic function recovers the exponential. -/
theorem sigmoid_ratio (x : ℝ) :
    sigmoid x / (1 - sigmoid x) = Real.exp x := by
  have hy : (0 : ℝ) < Real.exp x := Real.exp_pos x
  rw [sigmoid, Real.exp_neg]
  have h1 : (1 : ℝ) + (Real.exp x)⁻¹ ≠ 0 := by positivity
  field_simp

/-- C7: for every `x` with `sigmoid x ∈ [eps, 1-eps]`,
`inverse_sigmoid (sigmoid x) eps = x` exactly; and for every input the two
clamped values entering the division and logarithm are at least `eps`, so no
division by zero or log of zero occurs. -/
theorem inverse_sigmoid_round_trip (x y eps : ℝ) (heps : 0 < eps)
    (h1 : eps ≤ sigmoid x) (h2 : sigmoid x ≤ 1 - eps) :
    inverse_sigmoid (sigmoid x) eps = x ∧
      eps ≤ inv_sig_x1 y eps ∧ eps ≤ inv_sig_x2 y eps := by
  refine ⟨?_, le_max_right _ _, le_max_right _ _⟩
  have hs0 : 0 ≤ sigmoid x := le_trans heps.le h1
  have hs1 : sigmoid x ≤ 1 := by linarith
  have hclamp : min (max (sigmoid x) 0) 1 = sigmoid x := by
    rw [max_eq_left hs0, min_eq_left hs1]
  rw [inverse_sigmoid, inv_sig_x1, inv_sig_x2, hclamp,
    max_eq_left h1, max_eq_left (by linarith : eps ≤ 1 - sigmoid x),
    sigmoid_ratio, Real.log_exp]

/-- Witness for C7 at `x = 0`, `y = 1/2`, `eps = 1/100`. -/
theorem inverse_sigmoid_round_trip_witness :
    (0 : ℝ) < 1/100 ∧ inverse_sigmoid (sigmoid 0) (1/100) = 0 ∧
      (1 : ℝ)/100 ≤ inv_sig_x1 (1/2) (1/100) ∧
      (1 : ℝ)/100 ≤ inv_sig_x2 (1/2) (1/100) := by
  have h1 : (1 : ℝ)/100 ≤ sigmoid 0 := by
    rw [sigmoid_zero]
    norm_num
  have h2 : sigmoid 0 ≤ 1 - 1/100 := by
    rw [sigmoid_zero]
    norm_num
  have h := inverse_sigmoid_round_trip 0 (1/2) (1/100) (by norm_num) h1 h2
  exact ⟨by norm_num, h.1, h.2.1, h.2.2⟩
